import Mathlib

/-!
Verification of the tessellation-and-extraction engine in
`src/jupyter_cadquery/tessellator.py`.

The engine is shallowly embedded: machine floats are modelled as rationals,
numpy buffers as Lean lists, and the CAD-kernel collaborators (OCCT via OCP)
as explicit data or function parameters, following the spec's interface
description.  Every definition mirrors the corresponding Python function of
the source file; the sole exception is `round_sig`, which lives in
`jupyter_cadquery/utils.py` (not part of the sources here) and is therefore
modelled from the spec.
-/

namespace JQC

/-- A 3-dimensional point (`gp_Pnt`); floats are modelled as rationals. -/
structure Pnt where
  x : ℚ
  y : ℚ
  z : ℚ
deriving DecidableEq

/-- A 3-dimensional vector (`gp_Vec`), as a triple of scalars. -/
abbrev Vec3 := ℚ × ℚ × ℚ

/-- `gp_Vec.SquareMagnitude()`. -/
def sqMagnitude (v : Vec3) : ℚ :=
  v.1 * v.1 + v.2.1 * v.2.1 + v.2.2 * v.2.2

/-- `gp_Vec.Reverse()`: the vector with all components negated. -/
def vecReverse (v : Vec3) : Vec3 :=
  (-v.1, -v.2.1, -v.2.2)

/-- `gp_Vec.Coord()`: the flat coordinate triple of a vector. -/
def vecCoord (v : Vec3) : List ℚ :=
  [v.1, v.2.1, v.2.2]

/-- A homogeneous transform (`TopLoc_Location.Transformation()`, `gp_Trsf`):
a 3×3 linear part plus a translation. -/
structure Trsf where
  m11 : ℚ
  m12 : ℚ
  m13 : ℚ
  m21 : ℚ
  m22 : ℚ
  m23 : ℚ
  m31 : ℚ
  m32 : ℚ
  m33 : ℚ
  t1 : ℚ
  t2 : ℚ
  t3 : ℚ
deriving DecidableEq

/-- The identity transform (`TopLoc_Location()` default). -/
def idTrsf : Trsf :=
  ⟨1, 0, 0, 0, 1, 0, 0, 0, 1, 0, 0, 0⟩

/-- `gp_Pnt.Transformed(trsf)`: apply the homogeneous transform. -/
def Pnt.transformed (p : Pnt) (t : Trsf) : Pnt :=
  ⟨t.m11 * p.x + t.m12 * p.y + t.m13 * p.z + t.t1,
   t.m21 * p.x + t.m22 * p.y + t.m23 * p.z + t.t2,
   t.m31 * p.x + t.m32 * p.y + t.m33 * p.z + t.t3⟩

/-- `gp_Pnt.Coord()`: the flat coordinate list of a point. -/
def Pnt.coord (p : Pnt) : List ℚ :=
  [p.x, p.y, p.z]

/-- `TopAbs_Orientation` of a face. -/
inductive Orientation where
  | forward
  | reversed
  | internal
  | external
deriving DecidableEq

/-- A kernel triangulation of one face (`Poly_Triangulation`): 1-based nodes,
1-based triangle node indices, and optional UV parameters per node
(`HasUVNodes` / `UVNode`). -/
structure Triangulation where
  nodes : List Pnt
  triangles : List (ℕ × ℕ × ℕ)
  uvNodes : Option (List (ℚ × ℚ))
deriving DecidableEq

/-- A face of the shape.  `triangulation` is the kernel's answer to
`BRep_Tool.Triangulation_s(face, loc)` (none when the face carries no mesh),
`location` the associated location's transformation, and `normalAt` the
kernel's surface-normal evaluator `BRepGProp_Face(face).Normal(u, v, ...)`
(a kernel collaborator, hence an opaque function of the UV parameters). -/
structure Face where
  orientation : Orientation
  location : Trsf
  triangulation : Option Triangulation
  normalAt : ℚ → ℚ → Vec3

/-- Access the components of the 1-based triple returned by
`Poly_Triangle.Get()` by position, as the Python tuple indexing
`coord[0]`, `coord[i1]`, `coord[i2]` does. -/
def tri_get (t : ℕ × ℕ × ℕ) : ℕ → ℕ
  | 0 => t.1
  | 1 => t.2.1
  | _ => t.2.2

/-- The mutable buffers of `Tessellator` during `tessellate()`:
flat vertex coordinates, flat triangle indices, flat normal coordinates,
and the running node offset (initialized to `-1`). -/
structure TessState where
  vertices : List ℚ
  triangles : List ℤ
  normals : List ℚ
  offset : ℤ
deriving DecidableEq

/-- The initial buffer state set by `tessellate()` before the face loop:
empty buffers and `offset = -1`. -/
def initState : TessState :=
  ⟨[], [], [], -1⟩

/-- The flat vertex coordinates contributed by one face in `tessellate()`:
every node, transformed by the face's location, in native node order. -/
def face_vertices (f : Face) (poly : Triangulation) : List ℚ :=
  (poly.nodes.map (fun q => (q.transformed f.location).coord)).flatten

/-- The flat triangle indices contributed by one face in `tessellate()`:
each kernel triangle `(coord[0], coord[i1], coord[i2])` with the running
offset added, where `(i1, i2) = (2, 1)` for a reversed face and `(1, 2)`
otherwise. -/
def face_triangles (f : Face) (poly : Triangulation) (offset : ℤ) : List ℤ :=
  let p : ℕ × ℕ := if f.orientation = Orientation.reversed then (2, 1) else (1, 2)
  (poly.triangles.map (fun t =>
    [(tri_get t 0 : ℤ) + offset, (tri_get t p.1 : ℤ) + offset,
     (tri_get t p.2 : ℤ) + offset])).flatten

/-- The normal coordinates contributed by the node of index `i` (0-based)
in the per-node loop of `tessellate()`: evaluate the surface normal at the
node's UV parameters, normalize it when its square magnitude is positive
(`kN` models the kernel primitive `gp_Vec.Normalize`), and reverse it when
the face is internal. -/
def node_normal (kN : Vec3 → Vec3) (f : Face) (uvs : List (ℚ × ℚ)) (i : ℕ) : List ℚ :=
  let uv := uvs.getD i (0, 0)
  let n := f.normalAt uv.1 uv.2
  let n1 := if 0 < sqMagnitude n then kN n else n
  vecCoord (if f.orientation = Orientation.internal then vecReverse n1 else n1)

/-- The flat normal coordinates contributed by one face in `tessellate()`:
nothing when the triangulation has no UV nodes; otherwise one normal per
node of the triangulation (the loop runs over `1 .. NbNodes`). -/
def face_normals (kN : Vec3 → Vec3) (f : Face) (poly : Triangulation) : List ℚ :=
  match poly.uvNodes with
  | none => []
  | some uvs =>
      ((List.range poly.nodes.length).map (node_normal kN f uvs)).flatten

/-- One iteration of the face loop of `Tessellator.tessellate()`: a face with
no triangulation contributes nothing; otherwise its vertices, offset-adjusted
wound triangles and (when UV data is present) normals are appended, and the
running offset is advanced by the face's node count. -/
def tessellate_step (kN : Vec3 → Vec3) (st : TessState) (f : Face) : TessState :=
  match f.triangulation with
  | none => st
  | some poly =>
      { vertices := st.vertices ++ face_vertices f poly
        triangles := st.triangles ++ face_triangles f poly st.offset
        normals := st.normals ++ face_normals kN f poly
        offset := st.offset + (poly.nodes.length : ℤ) }

/-- `Tessellator.tessellate()`: reset the buffers and the offset to `-1`,
then process every face of the shape in traversal order. -/
def tessellate_run (kN : Vec3 → Vec3) (faces : List Face) : TessState :=
  faces.foldl (tessellate_step kN) initState

/-- The node count a face contributes to the vertex buffer:
its triangulation's node count, or 0 when it has no triangulation. -/
def faceNodeCount (f : Face) : ℕ :=
  match f.triangulation with
  | none => 0
  | some poly => poly.nodes.length

/-- Total node count over a face list. -/
def totalNodes (faces : List Face) : ℕ :=
  (faces.map faceNodeCount).sum

/-- The node count a face contributes to the normals buffer: its node count
when its triangulation exposes UV data, otherwise 0. -/
def uvNodeCount (f : Face) : ℕ :=
  match f.triangulation with
  | none => 0
  | some poly =>
      match poly.uvNodes with
      | none => 0
      | some _ => poly.nodes.length

/-- Total UV-capable node count over a face list. -/
def totalUVNodes (faces : List Face) : ℕ :=
  (faces.map uvNodeCount).sum

/-- Kernel invariant on a triangulation: every triangle's three node indices
are 1-based indices into the node list. -/
def valid_tri_indices (poly : Triangulation) : Prop :=
  ∀ t ∈ poly.triangles,
    1 ≤ t.1 ∧ t.1 ≤ poly.nodes.length ∧
    1 ≤ t.2.1 ∧ t.2.1 ≤ poly.nodes.length ∧
    1 ≤ t.2.2 ∧ t.2.2 ≤ poly.nodes.length

instance (poly : Triangulation) : Decidable (valid_tri_indices poly) :=
  List.decidableBAll _ poly.triangles

/-- Consecutive-pair segments of a point list, as built by the
`v1`/`v2` loop in `compute_edges` and by `discretize_edge`:
`N` points produce `N - 1` segments. -/
def segmentsOf {α : Type} : List α → List (α × α)
  | a :: b :: rest => (a, b) :: segmentsOf (b :: rest)
  | _ => []

/-- A topological edge of the shape as seen by `compute_edges`:
`faces` is the kernel's adjacent-face list (`MapShapesAndAncestors_s`,
then `FindFromKey`), and `polyNodes` the kernel's
`PolygonOnTriangulation_s(edge, triangulation, loc)` node-index list for the
first adjacent face's triangulation (none when the record is absent —
in particular the kernel returns none when that triangulation is null). -/
structure Edge where
  faces : List Face
  polyNodes : Option (List ℕ)

/-- `triangulation.Node(j)` for a 1-based index `j`, guarded against an
absent triangulation (the kernel invariant recorded with `Edge.polyNodes`
rules both failure modes out on the executed paths). -/
def nodeAt (tri : Option Triangulation) (j : ℕ) : Pnt :=
  match tri with
  | none => ⟨0, 0, 0⟩
  | some t => t.nodes.getD (j - 1) ⟨0, 0, 0⟩

/-- The segments contributed by one edge in `Tessellator.compute_edges()`:
an edge with no adjacent face, or with no `PolygonOnTriangulation` record, is
skipped; otherwise each referenced node of the first adjacent face's
triangulation is transformed by the location and consecutive pairs are
emitted. -/
def edgeSegments (e : Edge) : List (Pnt × Pnt) :=
  match e.faces with
  | [] => []
  | f :: _ =>
      match e.polyNodes with
      | none => []
      | some idxs =>
          segmentsOf (idxs.map (fun j => (nodeAt f.triangulation j).transformed f.location))

/-- `Tessellator.compute_edges()`: the segments of all edges of the shape,
appended in edge-map order. -/
def compute_edges_run (edges : List Edge) : List (Pnt × Pnt) :=
  (edges.map edgeSegments).flatten

/-- A B-rep shape as the engine sees it after the kernel collaborators are
consulted: `hash` is the kernel's structural hash `HashCode(2147483647)`,
`meshError` records whether `BRepMesh_IncrementalMesh` raises for this
shape at the requested fidelity (the kernel meshing outcome), and `faces`
and `edges` are the meshed topology read back by the extractors. -/
structure Shape where
  hash : ℕ
  meshError : Option String
  faces : List Face
  edges : List Edge

/-- Placeholder used for `shapes[0]` on an empty list (the Python code would
raise there; no claim exercises an empty shape list). -/
def defaultShape : Shape :=
  ⟨0, none, [], []⟩

/-- The four flat output buffers of `tessellate` (`numpy` arrays are
modelled as lists). -/
structure MeshResult where
  vertices : List ℚ
  triangles : List ℤ
  normals : List ℚ
  edges : List (Pnt × Pnt)
deriving DecidableEq

/-- The cache key tuple built by `make_key`. -/
abbrev CacheKey := ℕ × ℚ × ℚ × Bool × Bool

/-- The LRU cache, modelled as an association list (the byte-size budget and
LRU eviction of `cachetools.LRUCache` are not touched by any claim and are
not modelled: within the claims' scope no eviction occurs). -/
abbrev Cache := List (CacheKey × MeshResult)

/-- `make_key`: the cache key is the first shape's structural hash plus
quality, angular tolerance and the two output-selection flags; the
`debug` and `progress` parameters are accepted but not used. -/
def make_key (shapes : List Shape) (quality angular_tolerance : ℚ)
    (compute_edges compute_faces debug progress : Bool) : CacheKey :=
  ((shapes.headD defaultShape).hash, quality, angular_tolerance,
   compute_edges, compute_faces)

/-- Cache lookup (`cache[k]`, first match). -/
def lookupCache : Cache → CacheKey → Option MeshResult
  | [], _ => none
  | (k, v) :: rest, key => if k = key then some v else lookupCache rest key

/-- Cache insertion (`cache[k] = v`). -/
def insertCache (c : Cache) (k : CacheKey) (v : MeshResult) : Cache :=
  (k, v) :: c

/-- The side-channel (stdout) output of one `Tessellator.compute` call:
`progress` prints a `"t"`, `debug` makes the `Timer` contexts print; neither
contributes to the returned buffers. -/
def computeOutput (debug progress : Bool) : List String :=
  (if progress then ["t"] else []) ++ (if debug then ["timing"] else [])

/-- The external collaborators `tessellate` composes with:
`mkCompound` is `cadquery`'s `Compound._makeCompound`, and `kNormalize` the
kernel vector normalization `gp_Vec.Normalize`. -/
structure Env where
  mkCompound : List Shape → Shape
  kNormalize : Vec3 → Vec3

/-- The shape actually meshed by `tessellate`: the compound of the list when
it has more than one element, else its first element. -/
def compoundOf (env : Env) (shapes : List Shape) : Shape :=
  if shapes.length > 1 then env.mkCompound shapes else shapes.headD defaultShape

/-- `Tessellator.compute`: a raising kernel meshing call propagates as an
error; otherwise the face extractor runs when `compute_faces` is set and the
edge extractor when `compute_edges` is set, and the four buffers are
returned (a buffer not requested stays empty). -/
def computeShape (kN : Vec3 → Vec3) (s : Shape) (compute_faces compute_edges : Bool) :
    Except String MeshResult :=
  match s.meshError with
  | some e => Except.error e
  | none =>
      let st := if compute_faces then tessellate_run kN s.faces else initState
      let segs := if compute_edges then compute_edges_run s.edges else []
      Except.ok ⟨st.vertices, st.triangles, st.normals, segs⟩

/-- The module-level `tessellate` function together with its
`@cached(cache, key=make_key)` decorator: look the key up; on a hit return
the stored result without invoking the function (hence no side-channel
output); on a miss run the computation, and insert the result only when it
succeeds — a raising computation propagates and leaves the cache unchanged.
`make_key` receives the same like-named arguments as `tessellate`.
The triple returned is (result, cache afterwards, side-channel output). -/
def tessellate_cached (env : Env) (c : Cache) (shapes : List Shape)
    (quality angular_tolerance : ℚ)
    (compute_faces compute_edges debug progress : Bool) :
    Except String MeshResult × Cache × List String :=
  let k := make_key shapes quality angular_tolerance compute_edges compute_faces debug progress
  match lookupCache c k with
  | some v => (Except.ok v, c, [])
  | none =>
      let compound := compoundOf env shapes
      let out := computeOutput debug progress
      match computeShape env.kNormalize compound compute_faces compute_edges with
      | Except.error e => (Except.error e, c, out)
      | Except.ok v => (Except.ok v, insertCache c k v, out)

/-- Floor logarithm helper: `log10aux fuel n` is `⌊log10 n⌋` for `1 ≤ n`
whenever `n ≤ fuel`, by repeated division by 10 (structural on the fuel so
that it evaluates by kernel reduction). -/
def log10aux : ℕ → ℕ → ℕ
  | 0, _ => 0
  | fuel + 1, n => if n < 10 then 0 else log10aux fuel (n / 10) + 1

/-- `⌊log10 q⌋` of a positive rational: the unique `e` with
`10 ^ e ≤ q < 10 ^ (e + 1)` (0 for non-positive input, never consulted
there). -/
def floorLog10 (q : ℚ) : ℤ :=
  if q ≤ 0 then 0
  else if 1 ≤ q then (log10aux (Int.floor q).toNat (Int.floor q).toNat : ℤ)
  else
    let m := (Int.floor q⁻¹).toNat
    let k := log10aux m m
    if (10 : ℚ) ^ k * q = 1 then -(k : ℤ) else -(k : ℤ) - 1

/-- Modelled from the spec: `round_sig` lives in `jupyter_cadquery/utils.py`,
which is not among the sources here; per the spec, `round_sig x n` rounds
`x` to `n` significant decimal digits. -/
def round_sig (x : ℚ) (n : ℕ) : ℚ :=
  if x = 0 then 0
  else
    let d : ℤ := (n : ℤ) - 1 - floorLog10 |x|
    ((round (x * (10 : ℚ) ^ d) : ℤ) : ℚ) / (10 : ℚ) ^ d

/-- A bounding box as consumed by `compute_quality`: the three derived
extent sizes. -/
structure BoundingBox where
  xsize : ℚ
  ysize : ℚ
  zsize : ℚ
deriving DecidableEq

/-- `compute_quality`: the deterministic, geometry-scaled meshing fidelity
derived from a bounding box and a deviation factor. -/
def compute_quality (bb : BoundingBox) (deviation : ℚ) : ℚ :=
  round_sig ((round_sig bb.xsize 2 + round_sig bb.ysize 2 + round_sig bb.zsize 2)
      / 300 * deviation) 2

/-- A bounding box as consumed by `bbox_edges`: the six scalar extents of
the dict argument. -/
structure BBoxExtents where
  xmin : ℚ
  xmax : ℚ
  ymin : ℚ
  ymax : ℚ
  zmin : ℚ
  zmax : ℚ
deriving DecidableEq

/-- `bbox_edges`: the fixed 24-point (72-scalar) flat sequence tracing the
12 edges of an axis-aligned box, in the exact order of the source literal. -/
def bbox_edges (bb : BBoxExtents) : List ℚ :=
  [bb.xmax, bb.ymax, bb.zmin,
   bb.xmax, bb.ymax, bb.zmax,
   bb.xmax, bb.ymin, bb.zmax,
   bb.xmax, bb.ymax, bb.zmax,
   bb.xmax, bb.ymin, bb.zmin,
   bb.xmax, bb.ymax, bb.zmin,
   bb.xmax, bb.ymin, bb.zmin,
   bb.xmax, bb.ymin, bb.zmax,
   bb.xmin, bb.ymax, bb.zmax,
   bb.xmax, bb.ymax, bb.zmax,
   bb.xmin, bb.ymax, bb.zmin,
   bb.xmax, bb.ymax, bb.zmin,
   bb.xmin, bb.ymax, bb.zmin,
   bb.xmin, bb.ymax, bb.zmax,
   bb.xmin, bb.ymin, bb.zmax,
   bb.xmax, bb.ymin, bb.zmax,
   bb.xmin, bb.ymin, bb.zmax,
   bb.xmin, bb.ymax, bb.zmax,
   bb.xmin, bb.ymin, bb.zmin,
   bb.xmax, bb.ymin, bb.zmin,
   bb.xmin, bb.ymin, bb.zmin,
   bb.xmin, bb.ymax, bb.zmin,
   bb.xmin, bb.ymin, bb.zmin,
   bb.xmin, bb.ymin, bb.zmax]

/-- The outcome of `GCPnts_QuasiUniformDeflection` on one curve together
with the curve samples `curve_adaptator.Value(discretizer.Parameter(i)).Coord()`
for `i = 1 .. NbPoints` (both kernel collaborators): `isDone` is
`discretizer.IsDone()`. -/
structure DiscretizeOutcome where
  isDone : Bool
  points : List (ℚ × ℚ × ℚ)

/-- `discretize_edge`: raise when the kernel sampler did not converge,
otherwise emit the consecutive point pairs of the sampled polyline. -/
def discretize_edge (d : DiscretizeOutcome) :
    Except String (List ((ℚ × ℚ × ℚ) × (ℚ × ℚ × ℚ))) :=
  if d.isDone then Except.ok (segmentsOf d.points)
  else Except.error "Discretizer not done."

/-! Concrete sample geometry used to evaluate the definitions on explicit
inputs. -/

/-- A forward face with three nodes and the single triangle (1,2,3). -/
def faceFwd : Face :=
  { orientation := Orientation.forward
    location := idTrsf
    triangulation := some ⟨[⟨0, 0, 0⟩, ⟨1, 0, 0⟩, ⟨0, 1, 0⟩], [(1, 2, 3)], none⟩
    normalAt := fun _ _ => (0, 0, 1) }

/-- A reversed face with three nodes and the single triangle (1,2,3). -/
def faceRev : Face :=
  { orientation := Orientation.reversed
    location := idTrsf
    triangulation := some ⟨[⟨0, 0, 0⟩, ⟨1, 0, 0⟩, ⟨0, 1, 0⟩], [(1, 2, 3)], none⟩
    normalAt := fun _ _ => (0, 0, 1) }

/-- A one-node face whose triangulation exposes UV data. -/
def faceUV : Face :=
  { orientation := Orientation.forward
    location := idTrsf
    triangulation := some ⟨[⟨0, 0, 0⟩], [], some [(0, 0)]⟩
    normalAt := fun _ _ => (0, 0, 1) }

/-- A one-node face whose triangulation exposes no UV data. -/
def faceNoUV : Face :=
  { orientation := Orientation.forward
    location := idTrsf
    triangulation := some ⟨[⟨0, 0, 0⟩], [], none⟩
    normalAt := fun _ _ => (0, 0, 1) }

/-- An edge adjacent to `faceFwd` with a three-node polygon record. -/
def edgeW : Edge :=
  ⟨[faceFwd], some [1, 2, 3]⟩

/-- An edge with no adjacent face and no polygon record. -/
def edgeNoFaceW : Edge :=
  ⟨[], none⟩

/-- A sample environment: a trivial compound builder and the identity in
place of kernel normalization. -/
def envW : Env :=
  ⟨fun _ => defaultShape, fun v => v⟩

/-- A shape that meshes successfully. -/
def shapeOkW : Shape :=
  ⟨5, none, [faceFwd], [edgeW]⟩

/-- A shape with the same structural hash as `shapeOkW` but different
geometry. -/
def shapeOkW2 : Shape :=
  ⟨5, none, [], []⟩

/-- A further shape used as a differing list tail. -/
def shapeTailW : Shape :=
  ⟨9, none, [], []⟩

/-- A shape for which the kernel meshing call raises. -/
def shapeErrW : Shape :=
  ⟨7, some "mesh failed", [], []⟩

/-- The mesh result `tessellate` computes for `[shapeOkW2]` with faces and
edges requested (empty: `shapeOkW2` carries no faces or edges). -/
def resultW : MeshResult :=
  ⟨[], [], [], []⟩

/-- The cache contents after that first call. -/
def cacheW : Cache :=
  [((5, 1, 1 / 2, true, true), resultW)]

/-! Helper lemmas. -/

lemma tri_get_zero (t : ℕ × ℕ × ℕ) : tri_get t 0 = t.1 := rfl

lemma tri_get_one (t : ℕ × ℕ × ℕ) : tri_get t 1 = t.2.1 := rfl

lemma tri_get_two (t : ℕ × ℕ × ℕ) : tri_get t 2 = t.2.2 := rfl

lemma flatten_map_length_const {α β : Type} (g : α → List β) (k : ℕ)
    (h : ∀ x, (g x).length = k) :
    ∀ l : List α, ((l.map g).flatten).length = k * l.length := by
  intro l
  induction l with
  | nil => simp
  | cons a t ih =>
      simp only [List.map_cons, List.flatten_cons, List.length_append, List.length_cons, h, ih]
      ring

lemma segmentsOf_length {α : Type} (l : List α) : (segmentsOf l).length = l.length - 1 := by
  induction l with
  | nil => rfl
  | cons a t ih =>
      cases t with
      | nil => rfl
      | cons b r =>
          simp only [segmentsOf, List.length_cons] at ih ⊢
          omega

lemma segmentsOf_getElem {α : Type} :
    ∀ (l : List α) (i : ℕ) (h1 : i < (segmentsOf l).length) (h2 : i < l.length)
      (h3 : i + 1 < l.length), (segmentsOf l)[i] = (l[i], l[i + 1])
  | [], i, h1, _, _ => by simp [segmentsOf] at h1
  | [a], i, h1, _, _ => by simp [segmentsOf] at h1
  | a :: b :: rest, 0, _, _, _ => rfl
  | a :: b :: rest, i + 1, h1, h2, h3 => by
      have hr1 : i < (segmentsOf (b :: rest)).length := by
        simp only [segmentsOf, List.length_cons] at h1; omega
      have hr2 : i < (b :: rest).length := by
        simp only [List.length_cons] at h2 ⊢; omega
      have hr3 : i + 1 < (b :: rest).length := by
        simp only [List.length_cons] at h3 ⊢; omega
      have ih := segmentsOf_getElem (b :: rest) i hr1 hr2 hr3
      simpa [segmentsOf] using ih

lemma lookup_insert (c : Cache) (k : CacheKey) (v : MeshResult) :
    lookupCache (insertCache c k v) k = some v := by
  simp [insertCache, lookupCache]

lemma step_offset (kN : Vec3 → Vec3) (st : TessState) (f : Face) :
    (tessellate_step kN st f).offset = st.offset + (faceNodeCount f : ℤ) := by
  cases h : f.triangulation with
  | none => simp [tessellate_step, h, faceNodeCount]
  | some poly => simp [tessellate_step, h, faceNodeCount]

lemma run_offset (kN : Vec3 → Vec3) (faces : List Face) :
    ∀ st : TessState,
      (faces.foldl (tessellate_step kN) st).offset = st.offset + (totalNodes faces : ℤ) := by
  induction faces with
  | nil => intro st; simp [totalNodes]
  | cons f fs ih =>
      intro st
      simp only [List.foldl_cons]
      rw [ih, step_offset]
      simp only [totalNodes, List.map_cons, List.sum_cons]
      push_cast
      ring

lemma step_vertices (kN : Vec3 → Vec3) (st : TessState) (f : Face) :
    (tessellate_step kN st f).vertices.length = st.vertices.length + 3 * faceNodeCount f := by
  cases h : f.triangulation with
  | none => simp [tessellate_step, h, faceNodeCount]
  | some poly =>
      have hv := flatten_map_length_const (fun q => (Pnt.transformed q f.location).coord) 3
        (fun q => rfl) poly.nodes
      simp [tessellate_step, h, faceNodeCount, face_vertices, hv]

lemma run_vertices (kN : Vec3 → Vec3) (faces : List Face) :
    ∀ st : TessState,
      (faces.foldl (tessellate_step kN) st).vertices.length =
        st.vertices.length + 3 * totalNodes faces := by
  induction faces with
  | nil => intro st; simp [totalNodes]
  | cons f fs ih =>
      intro st
      simp only [List.foldl_cons]
      rw [ih, step_vertices]
      simp only [totalNodes, List.map_cons, List.sum_cons]
      ring

lemma step_normals (kN : Vec3 → Vec3) (st : TessState) (f : Face) :
    (tessellate_step kN st f).normals.length = st.normals.length + 3 * uvNodeCount f := by
  cases h : f.triangulation with
  | none => simp [tessellate_step, h, uvNodeCount]
  | some poly =>
      cases hu : poly.uvNodes with
      | none => simp [tessellate_step, h, uvNodeCount, face_normals, hu]
      | some uvs =>
          have hn := flatten_map_length_const (node_normal kN f uvs) 3 (fun i => rfl)
            (List.range poly.nodes.length)
          simp [tessellate_step, h, uvNodeCount, face_normals, hu, hn]

lemma run_normals (kN : Vec3 → Vec3) (faces : List Face) :
    ∀ st : TessState,
      (faces.foldl (tessellate_step kN) st).normals.length =
        st.normals.length + 3 * totalUVNodes faces := by
  induction faces with
  | nil => intro st; simp [totalUVNodes]
  | cons f fs ih =>
      intro st
      simp only [List.foldl_cons]
      rw [ih, step_normals]
      simp only [totalUVNodes, List.map_cons, List.sum_cons]
      ring

lemma step_tris_extend (kN : Vec3 → Vec3) (st : TessState) (f : Face) :
    ∃ l, (tessellate_step kN st f).triangles = st.triangles ++ l := by
  cases h : f.triangulation with
  | none => exact ⟨[], by simp [tessellate_step, h]⟩
  | some poly => exact ⟨face_triangles f poly st.offset, by simp [tessellate_step, h]⟩

lemma run_tris_extend (kN : Vec3 → Vec3) (faces : List Face) :
    ∀ st : TessState,
      ∃ l, (faces.foldl (tessellate_step kN) st).triangles = st.triangles ++ l := by
  induction faces with
  | nil => intro st; exact ⟨[], by simp⟩
  | cons f fs ih =>
      intro st
      obtain ⟨l1, h1⟩ := step_tris_extend kN st f
      obtain ⟨l2, h2⟩ := ih (tessellate_step kN st f)
      exact ⟨l1 ++ l2, by simp only [List.foldl_cons]; rw [h2, h1, List.append_assoc]⟩

lemma mem_face_triangles {f : Face} {poly : Triangulation} {offset i : ℤ}
    (hval : valid_tri_indices poly) (hi : i ∈ face_triangles f poly offset) :
    ∃ x : ℕ, 1 ≤ x ∧ x ≤ poly.nodes.length ∧ i = (x : ℤ) + offset := by
  simp only [face_triangles] at hi
  by_cases ho : f.orientation = Orientation.reversed <;>
    simp only [ho, if_true, if_false, reduceIte] at hi <;>
    · rcases List.mem_flatten.mp hi with ⟨l, hl, hil⟩
      rcases List.mem_map.mp hl with ⟨t, ht, rfl⟩
      have hb := hval t ht
      simp only [tri_get_zero, tri_get_one, tri_get_two, List.mem_cons,
        List.not_mem_nil, or_false] at hil
      rcases hil with rfl | rfl | rfl
      · exact ⟨t.1, hb.1, hb.2.1, rfl⟩
      · first
        | exact ⟨t.2.2, hb.2.2.2.2.1, hb.2.2.2.2.2, rfl⟩
        | exact ⟨t.2.1, hb.2.2.1, hb.2.2.2.1, rfl⟩
      · first
        | exact ⟨t.2.1, hb.2.2.1, hb.2.2.2.1, rfl⟩
        | exact ⟨t.2.2, hb.2.2.2.2.1, hb.2.2.2.2.2, rfl⟩

lemma step_bounds (kN : Vec3 → Vec3) (st : TessState) (f : Face)
    (hf : ∀ poly, f.triangulation = some poly → valid_tri_indices poly)
    (hoff : -1 ≤ st.offset)
    (hin : ∀ i ∈ st.triangles, 0 ≤ i ∧ i < st.offset + 1) :
    -1 ≤ (tessellate_step kN st f).offset ∧
    ∀ i ∈ (tessellate_step kN st f).triangles,
      0 ≤ i ∧ i < (tessellate_step kN st f).offset + 1 := by
  cases h : f.triangulation with
  | none => simp only [tessellate_step, h]; exact ⟨hoff, hin⟩
  | some poly =>
      have hval := hf poly h
      simp only [tessellate_step, h]
      constructor
      · have : (0 : ℤ) ≤ (poly.nodes.length : ℤ) := Int.ofNat_nonneg _
        omega
      · intro i hi
        simp only [List.mem_append] at hi
        rcases hi with hi | hi
        · have := hin i hi
          have hlen : (0 : ℤ) ≤ (poly.nodes.length : ℤ) := Int.ofNat_nonneg _
          omega
        · obtain ⟨x, hx1, hx2, rfl⟩ := mem_face_triangles hval hi
          omega

lemma run_bounds (kN : Vec3 → Vec3) :
    ∀ faces : List Face,
      (∀ f ∈ faces, ∀ poly, f.triangulation = some poly → valid_tri_indices poly) →
      ∀ st : TessState, -1 ≤ st.offset →
        (∀ i ∈ st.triangles, 0 ≤ i ∧ i < st.offset + 1) →
        -1 ≤ (faces.foldl (tessellate_step kN) st).offset ∧
        ∀ i ∈ (faces.foldl (tessellate_step kN) st).triangles,
          0 ≤ i ∧ i < (faces.foldl (tessellate_step kN) st).offset + 1 := by
  intro faces
  induction faces with
  | nil => intro _ st hoff hin; exact ⟨hoff, hin⟩
  | cons f fs ih =>
      intro hval st hoff hin
      have hstep := step_bounds kN st f (hval f (List.mem_cons_self f fs)) hoff hin
      simpa only [List.foldl_cons] using
        ih (fun g hg => hval g (List.mem_cons_of_mem f hg))
          (tessellate_step kN st f) hstep.1 hstep.2

lemma uv_eq_of_all : ∀ faces : List Face,
    (∀ f ∈ faces, ∀ poly, f.triangulation = some poly → poly.uvNodes.isSome) →
    totalUVNodes faces = totalNodes faces := by
  intro faces
  induction faces with
  | nil => intro _; rfl
  | cons f fs ih =>
      intro h
      have hf : uvNodeCount f = faceNodeCount f := by
        cases ht : f.triangulation with
        | none => simp [uvNodeCount, faceNodeCount, ht]
        | some poly =>
            have hs := h f (List.mem_cons_self f fs) poly ht
            cases hu : poly.uvNodes with
            | none => rw [hu] at hs; simp at hs
            | some uvs => simp [uvNodeCount, faceNodeCount, ht, hu]
      have ht := ih (fun g hg => h g (List.mem_cons_of_mem f hg))
      simp only [totalUVNodes, totalNodes, List.map_cons, List.sum_cons] at ht ⊢
      omega

lemma uv_zero_of_none : ∀ faces : List Face,
    (∀ f ∈ faces, ∀ poly, f.triangulation = some poly → poly.uvNodes = none) →
    totalUVNodes faces = 0 := by
  intro faces
  induction faces with
  | nil => intro _; rfl
  | cons f fs ih =>
      intro h
      have hf : uvNodeCount f = 0 := by
        cases ht : f.triangulation with
        | none => simp [uvNodeCount, ht]
        | some poly =>
            have hs := h f (List.mem_cons_self f fs) poly ht
            simp [uvNodeCount, ht, hs]
      have ht := ih (fun g hg => h g (List.mem_cons_of_mem f hg))
      simp only [totalUVNodes, List.map_cons, List.sum_cons] at ht ⊢
      omega

/-! Claim theorems. -/

/-- C1: when every face's triangulation satisfies the kernel invariant that
triangle node indices are 1-based indices into its node list, every emitted
triangle index lies in `[0, total_vertex_count)` (the vertex buffer holding
exactly `3 * totalNodes` scalars), and for any split of the traversal the
triangles emitted during the prefix are an initial segment of the final
buffer referencing only vertices appended during that prefix — the running
offset, initialized to `-1`, is advanced by each face's node count after
that face's vertices and triangles are appended. -/
theorem offset_correctness (kN : Vec3 → Vec3) (faces : List Face)
    (hval : ∀ f ∈ faces, ∀ poly, f.triangulation = some poly → valid_tri_indices poly) :
    (tessellate_run kN faces).vertices.length = 3 * totalNodes faces ∧
    (∀ i ∈ (tessellate_run kN faces).triangles, 0 ≤ i ∧ i < (totalNodes faces : ℤ)) ∧
    (∀ pre post, faces = pre ++ post →
      (∃ rest, (tessellate_run kN faces).triangles =
        (tessellate_run kN pre).triangles ++ rest) ∧
      (∀ i ∈ (tessellate_run kN pre).triangles, 0 ≤ i ∧ i < (totalNodes pre : ℤ))) := by
  have hbounds := run_bounds kN faces hval initState (by simp [initState])
    (by intro i hi; simp [initState] at hi)
  have hoffv : (faces.foldl (tessellate_step kN) initState).offset
      = -1 + (totalNodes faces : ℤ) := by
    rw [run_offset]
    simp [initState]
  refine ⟨?_, ?_, ?_⟩
  · show (faces.foldl (tessellate_step kN) initState).vertices.length = 3 * totalNodes faces
    rw [run_vertices]
    simp [initState]
  · intro i hi
    have hb := hbounds.2 i hi
    rw [hoffv] at hb
    omega
  · intro pre post hsplit
    subst hsplit
    have hvalpre : ∀ f ∈ pre, ∀ poly, f.triangulation = some poly → valid_tri_indices poly :=
      fun f hf => hval f (List.mem_append_left post hf)
    constructor
    · obtain ⟨l, hl⟩ := run_tris_extend kN post (tessellate_run kN pre)
      refine ⟨l, ?_⟩
      show ((pre ++ post).foldl (tessellate_step kN) initState).triangles
        = (tessellate_run kN pre).triangles ++ l
      rw [List.foldl_append]
      exact hl
    · have hb := run_bounds kN pre hvalpre initState (by simp [initState])
        (by intro i hi; simp [initState] at hi)
      have hoffpre : (pre.foldl (tessellate_step kN) initState).offset
          = -1 + (totalNodes pre : ℤ) := by
        rw [run_offset]
        simp [initState]
      intro i hi
      have hbi := hb.2 i hi
      rw [hoffpre] at hbi
      omega

/-- C1 witness: the kernel invariant holds of the concrete two-face shape
`[faceFwd, faceRev]`, and every emitted triangle index then lies in
`[0, totalNodes)`. -/
theorem offset_correctness_witness :
    (∀ f ∈ [faceFwd, faceRev], ∀ poly, f.triangulation = some poly → valid_tri_indices poly) ∧
    (∀ i ∈ (tessellate_run (fun v => v) [faceFwd, faceRev]).triangles,
      0 ≤ i ∧ i < (totalNodes [faceFwd, faceRev] : ℤ)) := by
  have hval : ∀ f ∈ [faceFwd, faceRev], ∀ poly,
      f.triangulation = some poly → valid_tri_indices poly := by
    intro f hf poly hp
    rcases List.mem_cons.mp hf with rfl | hf2
    · injection hp with h
      subst h
      decide
    · rcases List.mem_cons.mp hf2 with rfl | hf3
      · injection hp with h
        subst h
        decide
      · simp at hf3
  exact ⟨hval, (offset_correctness (fun v => v) [faceFwd, faceRev] hval).2.1⟩

/-- C2 counterexample: on a shape mixing a UV-capable face with a face
without UV data, the normals buffer length is neither 0 nor the vertices
buffer length, refuting the claim as stated. -/
theorem normals_alignment_cex :
    ¬ ((tessellate_run (fun v => v) [faceUV, faceNoUV]).normals.length = 0 ∨
       (tessellate_run (fun v => v) [faceUV, faceNoUV]).normals.length =
         (tessellate_run (fun v => v) [faceUV, faceNoUV]).vertices.length) := by
  decide

/-- C2 (amended): the normals buffer holds exactly `3 * totalUVNodes`
scalars (one triple per node of each UV-capable face); it equals the
vertices buffer length when every face with a triangulation exposes UV
data, and is 0 when none does — a mixed shape yields a strictly
intermediate length. -/
theorem normals_alignment_amended (kN : Vec3 → Vec3) (faces : List Face) :
    (tessellate_run kN faces).normals.length = 3 * totalUVNodes faces ∧
    (tessellate_run kN faces).vertices.length = 3 * totalNodes faces ∧
    ((∀ f ∈ faces, ∀ poly, f.triangulation = some poly → poly.uvNodes.isSome) →
      (tessellate_run kN faces).normals.length =
        (tessellate_run kN faces).vertices.length) ∧
    ((∀ f ∈ faces, ∀ poly, f.triangulation = some poly → poly.uvNodes = none) →
      (tessellate_run kN faces).normals.length = 0) := by
  have hn : (tessellate_run kN faces).normals.length = 3 * totalUVNodes faces := by
    show (faces.foldl (tessellate_step kN) initState).normals.length = 3 * totalUVNodes faces
    rw [run_normals]
    simp [initState]
  have hv : (tessellate_run kN faces).vertices.length = 3 * totalNodes faces := by
    show (faces.foldl (tessellate_step kN) initState).vertices.length = 3 * totalNodes faces
    rw [run_vertices]
    simp [initState]
  refine ⟨hn, hv, ?_, ?_⟩
  · intro h
    rw [hn, hv, uv_eq_of_all faces h]
  · intro h
    rw [hn, uv_zero_of_none faces h]

/-- C2 witness for the amended claim: on the all-UV one-face shape
`[faceUV]` the normals buffer length equals the vertices buffer length. -/
theorem normals_alignment_amended_witness :
    (∀ f ∈ [faceUV], ∀ poly, f.triangulation = some poly → poly.uvNodes.isSome) ∧
    (tessellate_run (fun v => v) [faceUV]).normals.length =
      (tessellate_run (fun v => v) [faceUV]).vertices.length := by
  have hyp : ∀ f ∈ [faceUV], ∀ poly, f.triangulation = some poly → poly.uvNodes.isSome := by
    intro f hf poly hp
    rcases List.mem_cons.mp hf with rfl | hf2
    · injection hp with h
      subst h
      decide
    · simp at hf2
  exact ⟨hyp, (normals_alignment_amended (fun v => v) [faceUV]).2.2.1 hyp⟩

/-- C3: a reversed face emits each kernel triangle (n0,n1,n2) as
(n0,n2,n1) after offset adjustment — the 2nd and 3rd index positions
swapped — while any non-reversed face emits it unchanged. -/
theorem winding_spec (kN : Vec3 → Vec3) (st : TessState) (f : Face)
    (poly : Triangulation) (hp : f.triangulation = some poly) :
    (f.orientation = Orientation.reversed →
      (tessellate_step kN st f).triangles = st.triangles ++
        (poly.triangles.map (fun t =>
          [(t.1 : ℤ) + st.offset, (t.2.2 : ℤ) + st.offset,
           (t.2.1 : ℤ) + st.offset])).flatten) ∧
    (f.orientation ≠ Orientation.reversed →
      (tessellate_step kN st f).triangles = st.triangles ++
        (poly.triangles.map (fun t =>
          [(t.1 : ℤ) + st.offset, (t.2.1 : ℤ) + st.offset,
           (t.2.2 : ℤ) + st.offset])).flatten) := by
  constructor
  · intro h
    simp [tessellate_step, hp, face_triangles, h, tri_get_zero, tri_get_one, tri_get_two]
  · intro h
    simp [tessellate_step, hp, face_triangles, h, tri_get_zero, tri_get_one, tri_get_two]

/-- C3 witness: the reversed face `faceRev` carrying the single kernel
triangle (1,2,3) — node indices 1-based — emits exactly (0,2,1), the
spec's swapped example, while the forward face `faceFwd` emits (0,1,2). -/
theorem winding_spec_witness :
    (tessellate_step (fun v => v) initState faceRev).triangles = [0, 2, 1] ∧
    (tessellate_step (fun v => v) initState faceFwd).triangles = [0, 1, 2] := by
  constructor
  · have h := (winding_spec (fun v => v) initState faceRev
      ⟨[⟨0, 0, 0⟩, ⟨1, 0, 0⟩, ⟨0, 1, 0⟩], [(1, 2, 3)], none⟩ rfl).1 rfl
    rw [h]
    decide
  · have h := (winding_spec (fun v => v) initState faceFwd
      ⟨[⟨0, 0, 0⟩, ⟨1, 0, 0⟩, ⟨0, 1, 0⟩], [(1, 2, 3)], none⟩ rfl).2 (by decide)
    rw [h]
    decide

/-- C4: the cache key depends only on the first shape's structural hash and
the four key parameters, so a call whose shape list has a first element
with the same hash — whatever its other elements or length — is served the
previous call's cached MeshResult (hit, no recomputation, no new output). -/
theorem cache_key_first_shape (env : Env) (c : Cache) (s1 s2 : List Shape)
    (q a : ℚ) (cf ce d1 p1 d2 p2 : Bool) (v : MeshResult) (c1 : Cache) (o1 : List String)
    (hh : (s1.headD defaultShape).hash = (s2.headD defaultShape).hash)
    (h1 : tessellate_cached env c s1 q a cf ce d1 p1 = (Except.ok v, c1, o1)) :
    make_key s1 q a ce cf d1 p1 = make_key s2 q a ce cf d2 p2 ∧
    tessellate_cached env c1 s2 q a cf ce d2 p2 = (Except.ok v, c1, []) := by
  have hkey : make_key s1 q a ce cf d1 p1 = make_key s2 q a ce cf d2 p2 := by
    unfold make_key
    rw [hh]
  have hlook : lookupCache c1 (make_key s1 q a ce cf d1 p1) = some v := by
    simp only [tessellate_cached] at h1
    cases hc : lookupCache c (make_key s1 q a ce cf d1 p1) with
    | some w =>
        simp only [hc, Prod.mk.injEq, Except.ok.injEq] at h1
        obtain ⟨rfl, rfl, rfl⟩ := h1
        exact hc
    | none =>
        simp only [hc] at h1
        cases hcs : computeShape env.kNormalize (compoundOf env s1) cf ce with
        | error e => simp [hcs] at h1
        | ok w =>
            simp only [hcs, Prod.mk.injEq, Except.ok.injEq] at h1
            obtain ⟨rfl, rfl, rfl⟩ := h1
            exact lookup_insert c (make_key s1 q a ce cf d1 p1) _
  refine ⟨hkey, ?_⟩
  simp only [tessellate_cached, ← hkey, hlook]

/-- C4 witness: the shape lists `[shapeOkW2]` and `[shapeOkW, shapeTailW]`
differ in length, geometry and tail, yet their first elements share the
structural hash 5; after the first call fills the cache, the second call is
served the cached result. -/
theorem cache_key_first_shape_witness :
    make_key [shapeOkW2] 1 (1 / 2) true true false true =
      make_key [shapeOkW, shapeTailW] 1 (1 / 2) true true true false ∧
    tessellate_cached envW cacheW [shapeOkW, shapeTailW] 1 (1 / 2) true true true false =
      (Except.ok resultW, cacheW, []) :=
  cache_key_first_shape envW [] [shapeOkW2] [shapeOkW, shapeTailW] 1 (1 / 2)
    true true false true true false resultW cacheW ["t"] rfl rfl

/-- C5: `compute_quality` returns exactly
`round_sig((round_sig xsize 2 + round_sig ysize 2 + round_sig zsize 2) / 300 * deviation, 2)`
— a pure function — and any perturbation of a box size too small to change
its 2-significant-digit rounding leaves the returned quality unchanged. -/
theorem compute_quality_spec :
    (∀ (bb : BoundingBox) (deviation : ℚ),
      compute_quality bb deviation =
        round_sig ((round_sig bb.xsize 2 + round_sig bb.ysize 2 +
          round_sig bb.zsize 2) / 300 * deviation) 2) ∧
    (∀ (bb1 bb2 : BoundingBox) (deviation : ℚ),
      round_sig bb1.xsize 2 = round_sig bb2.xsize 2 →
      round_sig bb1.ysize 2 = round_sig bb2.ysize 2 →
      round_sig bb1.zsize 2 = round_sig bb2.zsize 2 →
      compute_quality bb1 deviation = compute_quality bb2 deviation) := by
  refine ⟨fun bb deviation => rfl, fun bb1 bb2 deviation h1 h2 h3 => ?_⟩
  unfold compute_quality
  rw [h1, h2, h3]

/-- C5 witness: perturbing the x size from 1 to 1.001 does not change its
2-significant-digit rounding, and the computed quality is unchanged. -/
theorem compute_quality_spec_witness :
    round_sig ((1001 : ℚ) / 1000) 2 = round_sig (1 : ℚ) 2 ∧
    compute_quality ⟨1001 / 1000, 1, 1⟩ (1 / 10) = compute_quality ⟨1, 1, 1⟩ (1 / 10) := by
  have ha : round_sig ((1001 : ℚ) / 1000) 2 = 1 := by
    have habs : |(1001 : ℚ) / 1000| = 1001 / 1000 := by
      rw [abs_of_pos]
      norm_num
    have hlog : floorLog10 ((1001 : ℚ) / 1000) = 0 := by
      have hfl : ⌊(1001 : ℚ) / 1000⌋ = 1 := by
        rw [Int.floor_eq_iff]
        norm_num
      unfold floorLog10
      rw [if_neg (by norm_num), if_pos (by norm_num), hfl]
      decide
    unfold round_sig
    rw [if_neg (by norm_num)]
    simp only [habs, hlog]
    norm_num [round_eq, zpow_one]
  have hb : round_sig (1 : ℚ) 2 = 1 := by
    have hlog : floorLog10 (1 : ℚ) = 0 := by
      unfold floorLog10
      rw [if_neg (by norm_num), if_pos (by norm_num), Int.floor_one]
      decide
    unfold round_sig
    rw [if_neg (by norm_num)]
    simp only [abs_one, hlog]
    norm_num [round_eq, zpow_one]
  have hx : round_sig ((1001 : ℚ) / 1000) 2 = round_sig (1 : ℚ) 2 := by
    rw [ha, hb]
  exact ⟨hx, compute_quality_spec.2 ⟨1001 / 1000, 1, 1⟩ ⟨1, 1, 1⟩ (1 / 10) hx rfl rfl⟩

/-- C6: an edge whose PolygonOnTriangulation has N node indices contributes
exactly N−1 consecutive-pair segments (0 when N ≤ 1); an edge with no
adjacent face or no PolygonOnTriangulation record contributes zero segments
without an error; and the edges buffer is the concatenation of the
per-edge segments. -/
theorem edge_segment_count :
    (∀ e : Edge, e.faces = [] → edgeSegments e = []) ∧
    (∀ (e : Edge) (f : Face) (fs : List Face), e.faces = f :: fs →
      e.polyNodes = none → edgeSegments e = []) ∧
    (∀ (e : Edge) (f : Face) (fs : List Face) (idxs : List ℕ),
      e.faces = f :: fs → e.polyNodes = some idxs →
      (edgeSegments e).length = idxs.length - 1 ∧
      (idxs.length ≤ 1 → edgeSegments e = [])) ∧
    (∀ es : List Edge, (compute_edges_run es).length =
      (es.map (fun e2 => (edgeSegments e2).length)).sum) := by
  refine ⟨?_, ?_, ?_, ?_⟩
  · intro e h
    simp [edgeSegments, h]
  · intro e f fs hf hp
    simp [edgeSegments, hf, hp]
  · intro e f fs idxs hf hp
    have hlen : (edgeSegments e).length = idxs.length - 1 := by
      simp [edgeSegments, hf, hp, segmentsOf_length]
    refine ⟨hlen, fun hle => ?_⟩
    have h0 : (edgeSegments e).length = 0 := by omega
    exact List.length_eq_zero.mp h0
  · intro es
    simp only [compute_edges_run, List.length_flatten, List.map_map]
    rfl

/-- C6 witness: the faceless edge contributes nothing, and the edge with the
3-node polygon record contributes 2 segments. -/
theorem edge_segment_count_witness :
    edgeSegments edgeNoFaceW = [] ∧ (edgeSegments edgeW).length = 3 - 1 := by
  refine ⟨edge_segment_count.1 edgeNoFaceW rfl, ?_⟩
  exact (edge_segment_count.2.2.1 edgeW faceFwd [] [1, 2, 3] rfl rfl).1

/-- C7: a kernel meshing error propagates unmodified out of `tessellate`
(never as an empty MeshResult) and the cache gains no entry under the
call's key, so the next identical request recomputes. -/
theorem fatal_not_cached (env : Env) (c : Cache) (shapes : List Shape)
    (q a : ℚ) (cf ce dbg prog : Bool) (msg : String)
    (hmiss : lookupCache c (make_key shapes q a ce cf dbg prog) = none)
    (herr : (compoundOf env shapes).meshError = some msg) :
    tessellate_cached env c shapes q a cf ce dbg prog =
      (Except.error msg, c, computeOutput dbg prog) := by
  have hcs : computeShape env.kNormalize (compoundOf env shapes) cf ce
      = Except.error msg := by
    simp [computeShape, herr]
  simp only [tessellate_cached, hmiss, hcs]

/-- C7 witness: on the shape whose meshing raises "mesh failed", the cached
`tessellate` returns that error and the cache stays empty. -/
theorem fatal_not_cached_witness :
    tessellate_cached envW [] [shapeErrW] 1 1 true true false true =
      (Except.error "mesh failed", [], computeOutput false true) :=
  fatal_not_cached envW [] [shapeErrW] 1 1 true true false true "mesh failed" rfl rfl

/-- C8: the `debug` and `progress` flags influence neither the cache key nor
the returned MeshResult nor the cache afterwards — only the side-channel
output. -/
theorem flags_noninterference (env : Env) (c : Cache) (shapes : List Shape)
    (q a : ℚ) (cf ce d1 p1 d2 p2 : Bool) :
    make_key shapes q a ce cf d1 p1 = make_key shapes q a ce cf d2 p2 ∧
    (tessellate_cached env c shapes q a cf ce d1 p1).1 =
      (tessellate_cached env c shapes q a cf ce d2 p2).1 ∧
    (tessellate_cached env c shapes q a cf ce d1 p1).2.1 =
      (tessellate_cached env c shapes q a cf ce d2 p2).2.1 := by
  refine ⟨rfl, ?_, ?_⟩ <;>
  · simp only [tessellate_cached, make_key]
    cases lookupCache c ((shapes.headD defaultShape).hash, q, a, ce, cf) with
    | some v => rfl
    | none =>
        cases computeShape env.kNormalize (compoundOf env shapes) cf ce with
        | error e => rfl
        | ok v => rfl

/-- C9: when the kernel's adaptive sampler does not converge,
`discretize_edge` raises rather than returning an empty result; otherwise
it returns exactly N−1 segments, each joining consecutive sampled points. -/
theorem discretize_edge_spec (d : DiscretizeOutcome) :
    (d.isDone = false → discretize_edge d = Except.error "Discretizer not done.") ∧
    (d.isDone = true →
      ∃ segs, discretize_edge d = Except.ok segs ∧
        segs.length = d.points.length - 1 ∧
        ∀ (i : ℕ) (h1 : i < segs.length) (h2 : i < d.points.length)
          (h3 : i + 1 < d.points.length),
          segs[i] = (d.points[i], d.points[i + 1])) := by
  constructor
  · intro h
    simp [discretize_edge, h]
  · intro h
    refine ⟨segmentsOf d.points, by simp [discretize_edge, h], segmentsOf_length _, ?_⟩
    intro i h1 h2 h3
    exact segmentsOf_getElem d.points i h1 h2 h3

/-- C9 witness: a non-converged sampler raises; a converged sampler with 3
points yields 2 segments. -/
theorem discretize_edge_spec_witness :
    discretize_edge ⟨false, [(0, 0, 0)]⟩ = Except.error "Discretizer not done." ∧
    ∃ segs, discretize_edge ⟨true, [(0, 0, 0), (1, 0, 0), (1, 1, 0)]⟩ = Except.ok segs ∧
      segs.length = 2 := by
  refine ⟨(discretize_edge_spec ⟨false, [(0, 0, 0)]⟩).1 rfl, ?_⟩
  obtain ⟨segs, hok, hlen, _⟩ :=
    (discretize_edge_spec ⟨true, [(0, 0, 0), (1, 0, 0), (1, 1, 0)]⟩).2 rfl
  exact ⟨segs, hok, hlen⟩

/-- C10: `bbox_edges` is a pure function of the six extents returning the
fixed 24-point (12-segment, 72-scalar) sequence tracing the box's edges;
on the unit box its first segment is the point pair (1,1,0),(1,1,1). -/
theorem bbox_edges_spec :
    (∀ bb : BBoxExtents, (bbox_edges bb).length = 72) ∧
    (bbox_edges ⟨0, 1, 0, 1, 0, 1⟩).take 6 = [1, 1, 0, 1, 1, 1] :=
  ⟨fun bb => rfl, by decide⟩

end JQC
